import Mathlib

/-!
Verification of the logview log viewer (src/main.rs): the ANSI escape
decoder `parse_log_line` and the interactive filter/scroll state machine
`App`, shallowly embedded in Lean.
-/

namespace Logview

/-! ## Data model (from src/main.rs) -/

/-- Foreground colors produced by the decoder (`tui::style::Color` members used). -/
inductive Color where
  | red
  | green
  | yellow
  | blue
  | magenta
  | cyan
deriving DecidableEq, Repr

/-- `tui::style::Style` as used by the program: an optional foreground color
and the BOLD modifier. `Style::default()` is `⟨none, false⟩`. -/
structure Style where
  fg : Option Color
  bold : Bool
deriving DecidableEq, Repr

def Style.default : Style := ⟨none, false⟩

/-- One styled text segment (`tui::text::Span`): text plus the style it was
flushed with. Text is kept as a `List Char`, matching Rust's `chars()` view. -/
structure Seg where
  text : List Char
  style : Style
deriving DecidableEq, Repr

/-- `LogEntry`: the raw line and its decoded styled representation.
In the source, `styled_spans` is `vec![Spans::from(spans)]`: a one-element
vector holding the list of segments. -/
structure LogEntry where
  raw_content : String
  styled_spans : List (List Seg)
deriving DecidableEq, Repr

/-! ## Escape decoder (`parse_log_line`, src/main.rs:224-275) -/

/-- The style update performed after an escape code is read
(the `match code.as_str()` at src/main.rs:251-261): each recognized code
replaces the whole style; anything else keeps the current style. -/
def applyCode (code : List Char) (current : Style) : Style :=
  if code = ['3', '1'] then ⟨some Color.red, false⟩
  else if code = ['3', '2'] then ⟨some Color.green, false⟩
  else if code = ['3', '3'] then ⟨some Color.yellow, false⟩
  else if code = ['3', '4'] then ⟨some Color.blue, false⟩
  else if code = ['3', '5'] then ⟨some Color.magenta, false⟩
  else if code = ['3', '6'] then ⟨some Color.cyan, false⟩
  else if code = ['1'] then ⟨none, true⟩
  else if code = ['0'] then Style.default
  else current

/-- The scanner state of `parse_log_line`'s `while` loops (src/main.rs:234-265).
`text cur` is the outer loop with pending buffer `current_text = cur`;
`code acc` is the inner loop of src/main.rs:244-249 with code buffer `acc`
(the two nested `while`s are rendered as one scanner with an explicit
"inside an escape code" state, which is the same control flow). -/
inductive PMode where
  | text : List Char → PMode
  | code : List Char → PMode
deriving DecidableEq, Repr

/-- The `while` loops of `parse_log_line` (src/main.rs:234-269), including the
final flush of a non-empty pending buffer. In `text` mode, `ESC '['` flushes
the pending text (if non-empty) and enters `code` mode; any other character
(including a lone ESC) is accumulated. In `code` mode, the first
ASCII-alphabetic character (`Char.isAlpha` is Rust's `is_ascii_alphabetic`)
terminates the code and applies the style change; other characters join the
code buffer. If input ends in `code` mode the pending buffer is empty, so
nothing more is emitted (the source's final style update is unobservable). -/
def parseGo (l : List Char) (m : PMode) (style : Style) : List Seg :=
  match l, m with
  | [], PMode.text cur => if cur = [] then [] else [⟨cur, style⟩]
  | [], PMode.code _ => []
  | c :: cs, PMode.code acc =>
    if c.isAlpha then parseGo cs (PMode.text []) (applyCode acc style)
    else parseGo cs (PMode.code (acc ++ [c])) style
  | '\x1B' :: '[' :: rest, PMode.text cur =>
    (if cur = [] then [] else [⟨cur, style⟩]) ++ parseGo rest (PMode.code []) style
  | c :: cs, PMode.text cur => parseGo cs (PMode.text (cur ++ [c])) style

/-- `parse_log_line` (src/main.rs:224-275): `None` on lines that are empty
after trimming — `line.trim().is_empty()` holds exactly when every character
is whitespace — otherwise the raw line plus its decoded segments wrapped in
a one-element `styled_spans` vector. -/
def parse_log_line (line : String) : Option LogEntry :=
  if line.data.all Char.isWhitespace then none
  else some ⟨line, [parseGo line.data (PMode.text []) Style.default]⟩

/-- All segments of an entry, in order (flattening the one-element
`styled_spans` wrapper). -/
def segmentsOf (e : LogEntry) : List Seg := e.styled_spans.flatten

/-- Concatenation of the texts of a segment list, in order. -/
def segTexts (spans : List Seg) : List Char := (spans.map Seg.text).flatten

/-! ## Spec-side stripping (for the refinement claim about decoding)

These two definitions follow the spec's words, not the source: an escape
sequence is `ESC '['` up to and including its first ASCII-alphabetic
terminator (the whole remaining line when no terminator exists), and
stripping removes every such region. -/

/-- Remove every escape region; the `Bool` records whether the scanner is
inside an escape region (which ends at the first ASCII-alphabetic character,
inclusive, or at end of input). -/
def stripGo : List Char → Bool → List Char
  | [], _ => []
  | c :: cs, true => if c.isAlpha then stripGo cs false else stripGo cs true
  | '\x1B' :: '[' :: rest, false => stripGo rest true
  | c :: cs, false => c :: stripGo cs false

/-- The input with every escape region removed. -/
def stripEscapes (l : List Char) : List Char := stripGo l false

/-! ## Regex collaborator

The program uses the external `regex` crate: `Regex::new` may fail, and a
compiled regex's matching behavior is a function of its pattern string. We
model the crate as an abstract engine; state-machine theorems are proved for
every engine. -/

/-- Abstract model of the `regex` crate: which pattern strings compile
(`Regex::new(p).is_ok()`), and what a compiled pattern matches
(`regex.is_match(text)`). -/
structure RegexEngine where
  compilesOk : String → Bool
  isMatch : String → String → Bool

/-- Modelled from the spec: a tiny concrete fragment of the `regex` crate's
behavior, used only to instantiate counterexamples and witnesses. Patterns
containing `[` are malformed (an unbalanced `[` fails to compile, per the
spec's example); other patterns here are treated as literals matching by
substring containment, which agrees with the crate on metacharacter-free
patterns. -/
def startsWithSeq : List Char → List Char → Bool
  | [], _ => true
  | _ :: _, [] => false
  | x :: xs, y :: ys => x == y && startsWithSeq xs ys

/-- `containsSeq needle hay`: `needle` occurs contiguously in `hay`. -/
def containsSeq (needle : List Char) : List Char → Bool
  | [] => startsWithSeq needle []
  | c :: cs => startsWithSeq needle (c :: cs) || containsSeq needle cs

/-- Modelled from the spec: the concrete engine described above. -/
def litEngine : RegexEngine where
  compilesOk p := !(p.data.contains '[')
  isMatch p s := containsSeq p.data s.data

/-! ## View state machine (`App`, src/main.rs:24-113) -/

/-- `App` (src/main.rs:24-31). A compiled `Regex` is represented by its
pattern string (its matching behavior is the engine applied to the pattern). -/
structure App where
  logs : List LogEntry
  search_pattern : String
  is_searching : Bool
  search_regex : Option String
  saved_patterns : List String
  scroll : Nat
deriving DecidableEq, Repr

/-- `App::new` (src/main.rs:34-43). -/
def App.new (logs : List LogEntry) : App :=
  ⟨logs, "", false, none, [], 0⟩

/-- `App::filtered_logs` (src/main.rs:45-53). -/
def App.filtered_logs (E : RegexEngine) (a : App) : List LogEntry :=
  match a.search_regex with
  | some p => a.logs.filter (fun log => E.isMatch p log.raw_content)
  | none => a.logs

/-- `App::load_pattern` (src/main.rs:55-67): key 0 clears the filter; keys
1..=len recall `saved_patterns[key-1]` and recompile it (on compile failure
the regex is left unchanged); larger keys do nothing. -/
def App.load_pattern (E : RegexEngine) (a : App) (key : Nat) : App :=
  if key = 0 then { a with search_pattern := "", search_regex := none }
  else if key ≤ a.saved_patterns.length then
    let pattern := a.saved_patterns.getD (key - 1) ""
    if E.compilesOk pattern then
      { a with search_pattern := pattern, search_regex := some pattern }
    else
      { a with search_pattern := pattern }
  else a

/-- `App::scroll_up` (src/main.rs:77-81). -/
def App.scroll_up (a : App) : App :=
  if a.scroll > 0 then { a with scroll := a.scroll - 1 } else a

/-- `App::scroll_down` (src/main.rs:83-88). Nat subtraction is the
`saturating_sub` of the source. -/
def App.scroll_down (E : RegexEngine) (a : App) (height : Nat) : App :=
  let max_scroll := (a.filtered_logs E).length - height
  if a.scroll < max_scroll then { a with scroll := a.scroll + 1 } else a

/-- `App::page_up` (src/main.rs:90-92). -/
def App.page_up (a : App) (height : Nat) : App :=
  { a with scroll := a.scroll - height }

/-- `App::page_down` (src/main.rs:94-97). -/
def App.page_down (E : RegexEngine) (a : App) (height : Nat) : App :=
  let max_scroll := (a.filtered_logs E).length - height
  { a with scroll := min (a.scroll + height) max_scroll }

/-- `App::confirm_search` (src/main.rs:99-112): leave search mode; for a
non-empty pattern that compiles, install the regex and, when the pattern is
not already saved, append it after evicting the oldest entry (`remove(0)`)
if the history already holds 10. -/
def App.confirm_search (E : RegexEngine) (a : App) : App :=
  let a1 := { a with is_searching := false }
  if a.search_pattern = "" then a1
  else if E.compilesOk a.search_pattern then
    let a2 := { a1 with search_regex := some a.search_pattern }
    if a.saved_patterns.contains a.search_pattern then a2
    else if 10 ≤ a.saved_patterns.length then
      { a2 with saved_patterns := a.saved_patterns.drop 1 ++ [a.search_pattern] }
    else
      { a2 with saved_patterns := a.saved_patterns ++ [a.search_pattern] }
  else a1

/-- The `Esc` key handler of the main loop (src/main.rs:167-171): leave
search mode, clear the pattern and the compiled regex. -/
def App.cancel_search (a : App) : App :=
  { a with is_searching := false, search_pattern := "", search_regex := none }

/-- The key events the main loop (src/main.rs:147-190) dispatches to state
mutations: arrows, paging, confirming, recalling a slot, cancelling. -/
inductive Op where
  | scrollUp : Op
  | scrollDown : Nat → Op
  | pageUp : Nat → Op
  | pageDown : Nat → Op
  | confirm : Op
  | recallSlot : Nat → Op
  | cancel : Op
deriving DecidableEq, Repr

/-- One dispatch step of the main loop. -/
def App.step (E : RegexEngine) (a : App) : Op → App
  | Op.scrollUp => a.scroll_up
  | Op.scrollDown h => a.scroll_down E h
  | Op.pageUp h => a.page_up h
  | Op.pageDown h => a.page_down E h
  | Op.confirm => a.confirm_search E
  | Op.recallSlot n => a.load_pattern E n
  | Op.cancel => a.cancel_search

/-- Run a sequence of dispatch steps. -/
def App.run (E : RegexEngine) (a : App) (ops : List Op) : App :=
  ops.foldl (App.step E) a

/-- The scroll invariant claimed by the spec: with viewport height `h`,
`scrollOffset ≤ max (0, filteredCount − h)` (Nat subtraction gives the
`max 0`; `0 ≤ scroll` is inherent in `Nat`). -/
def scrollInv (E : RegexEngine) (h : Nat) (a : App) : Prop :=
  a.scroll ≤ (a.filtered_logs E).length - h

instance (E : RegexEngine) (h : Nat) (a : App) : Decidable (scrollInv E h a) := by
  unfold scrollInv; infer_instance

/-- The pure scroll operations, all taken at the same viewport height `h`. -/
def Op.isScrollOp (h : Nat) : Op → Prop
  | Op.scrollUp => True
  | Op.scrollDown h2 => h2 = h
  | Op.pageUp h2 => h2 = h
  | Op.pageDown h2 => h2 = h
  | _ => False

/-- Confirming a sequence of patterns: before each confirm the pattern is
typed into the edit buffer (`/` then the characters, then Enter). -/
def confirmList (E : RegexEngine) (a : App) : List String → App
  | [] => a
  | p :: ps =>
    confirmList E (App.confirm_search E { a with search_pattern := p, is_searching := true }) ps

/-- The last `n` elements of a list (what remains of the history after all
evictions). -/
def lastN (n : Nat) (xs : List α) : List α := xs.drop (xs.length - n)

/-! ## Concrete fixtures used by counterexamples and witnesses -/

def entryAlpha : LogEntry := ⟨"alpha", []⟩

def entryBeta : LogEntry := ⟨"beta", []⟩

/-- A state about to confirm the pattern "zz": two lines, viewport height 1,
scroll legally at 1 (the last line). -/
def zzApp : App := ⟨[entryAlpha, entryBeta], "zz", true, none, [], 1⟩

def c2line : String := "\x1B[31mERROR\x1B[0m done"

/-- The decoded form of `c2line`. -/
def c2entry : LogEntry :=
  ⟨c2line, [[⟨"ERROR".data, ⟨some Color.red, false⟩⟩, ⟨" done".data, ⟨none, false⟩⟩]]⟩

/-- Eleven pairwise-distinct valid (literal) patterns. -/
def elevenPats : List String :=
  ["pa", "pb", "pc", "pd", "pe", "pf", "pg", "ph", "pi", "pj", "pk"]

/-- A state that has previously confirmed "ERROR" and is now editing an
empty pattern. -/
def errApp : App := ⟨[entryAlpha], "", true, some "ERROR", ["ERROR"], 0⟩

/-- A state editing the malformed pattern "[" with a previously confirmed
filter "ERROR" in place. -/
def brokenApp : App := ⟨[entryAlpha], "[", true, some "ERROR", ["ERROR"], 0⟩

/-- A state re-confirming the pattern "beta", which is already in history. -/
def dupApp : App := ⟨[entryAlpha, entryBeta], "beta", true, some "alpha", ["beta", "alpha"], 0⟩

/-! ## Decoder lemmas -/

theorem segTexts_append (a b : List Seg) : segTexts (a ++ b) = segTexts a ++ segTexts b := by
  simp [segTexts]

/-- In text mode, a character that does not open an escape sequence is
accumulated into the pending buffer. -/
theorem parseGo_text_cons (c : Char) (cs cur : List Char) (style : Style)
    (h : ∀ rest, c = '\x1B' → cs = '[' :: rest → False) :
    parseGo (c :: cs) (PMode.text cur) style = parseGo cs (PMode.text (cur ++ [c])) style := by
  by_cases hc : c = '\x1B'
  · subst hc
    rcases cs with _ | ⟨c2, cs2⟩
    · simp [parseGo]
    · have h2 : ¬ c2 = '[' := fun he => h cs2 rfl (by rw [he])
      simp [parseGo, h2]
  · simp [parseGo, hc]

/-- In non-escape mode, a character that does not open an escape sequence is
kept by the spec-side stripper. -/
theorem stripGo_false_cons (c : Char) (cs : List Char)
    (h : ∀ rest, c = '\x1B' → cs = '[' :: rest → False) :
    stripGo (c :: cs) false = c :: stripGo cs false := by
  by_cases hc : c = '\x1B'
  · subst hc
    rcases cs with _ | ⟨c2, cs2⟩
    · simp [stripGo]
    · have h2 : ¬ c2 = '[' := fun he => h cs2 rfl (by rw [he])
      simp [stripGo, h2]
  · simp [stripGo, hc]

/-- Concatenating the decoder's segment texts yields the pending buffer
followed by the stripped remainder of the input. -/
theorem parseGo_segTexts (l : List Char) (m : PMode) (style : Style) :
    segTexts (parseGo l m style) =
      (match m with
       | PMode.text cur => cur ++ stripGo l false
       | PMode.code _ => stripGo l true) := by
  induction l, m, style using parseGo.induct with
  | case1 style => simp [parseGo, stripGo, segTexts]
  | case2 style cur h => simp [parseGo, stripGo, segTexts, h]
  | case3 style acc => simp [parseGo, stripGo, segTexts]
  | case4 style c cs acc halpha ih => simp [parseGo, stripGo, halpha, ih]
  | case5 style c cs acc halpha ih => simp [parseGo, stripGo, halpha, ih]
  | case6 style rest cur ih =>
    have ih2 : segTexts (parseGo rest (PMode.code []) style) = stripGo rest true := ih
    simp only [parseGo, stripGo, segTexts_append, ih2]
    by_cases hc : cur = [] <;> simp [segTexts, hc]
  | case7 style c cs cur hne ih =>
    rw [parseGo_text_cons c cs cur style hne, stripGo_false_cons c cs hne, ih]
    simp

/-- C2: for every non-empty input line accepted by the decoder, concatenating
the texts of the produced segments, in order, equals the input line with
every escape sequence (ESC `[` up to and including its first ASCII-alphabetic
terminator, or the end of the line) removed; no character of a stripped
escape region appears in any segment text. -/
theorem decode_concat_strips (line : String) (entry : LogEntry)
    (h : parse_log_line line = some entry) :
    segTexts (segmentsOf entry) = stripEscapes line.data := by
  unfold parse_log_line at h
  split at h
  · exact absurd h (by simp)
  · rw [Option.some.injEq] at h
    subst h
    have hmain := parseGo_segTexts line.data (PMode.text []) Style.default
    simpa [segmentsOf, stripEscapes] using hmain

/-- Witness for C2 at the concrete line `"\x1B[31mERROR\x1B[0m done"`. -/
theorem decode_concat_strips_witness :
    segTexts (segmentsOf c2entry) = stripEscapes c2line.data :=
  decode_concat_strips c2line c2entry (by decide)

/-- A line with no `ESC [` occurrence is scanned as plain text. -/
theorem parseGo_noEsc (l : List Char) : ∀ (cur : List Char) (style : Style),
    containsSeq ['\x1B', '['] l = false →
    parseGo l (PMode.text cur) style =
      (if cur ++ l = [] then [] else [⟨cur ++ l, style⟩]) := by
  induction l with
  | nil =>
    intro cur style _
    simp [parseGo]
  | cons c cs ih =>
    intro cur style h
    rw [containsSeq, Bool.or_eq_false_iff] at h
    have hstep : parseGo (c :: cs) (PMode.text cur) style
        = parseGo cs (PMode.text (cur ++ [c])) style := by
      apply parseGo_text_cons
      intro rest hc hcs
      subst hc
      subst hcs
      simp [startsWithSeq] at h
    rw [hstep, ih _ _ h.2]
    simp

/-- C5: a line that is accepted by the decoder (non-empty after trimming) and
contains no `ESC [` escape prefix decodes to exactly one segment with the
default style whose text is the whole input line. -/
theorem plain_line_single_segment (line : String) (entry : LogEntry)
    (h : parse_log_line line = some entry)
    (hne : containsSeq ['\x1B', '['] line.data = false) :
    segmentsOf entry = [⟨line.data, Style.default⟩] := by
  unfold parse_log_line at h
  split at h
  · exact absurd h (by simp)
  · rename_i hws
    have hnil : line.data ≠ [] := by
      intro h0
      exact hws (by simp [h0])
    rw [Option.some.injEq] at h
    subst h
    rw [segmentsOf]
    simp [parseGo_noEsc line.data [] Style.default hne, hnil]

/-- Witness for C5 at the concrete line `"plain text"`. -/
theorem plain_line_single_segment_witness :
    segmentsOf ⟨"plain text", [[⟨"plain text".data, Style.default⟩]]⟩
      = [⟨"plain text".data, Style.default⟩] :=
  plain_line_single_segment "plain text"
    ⟨"plain text", [[⟨"plain text".data, Style.default⟩]]⟩ (by decide) (by decide)

/-- Every segment emitted by the scanner has non-empty text. -/
theorem parseGo_text_ne (l : List Char) (m : PMode) (style : Style) :
    ∀ seg ∈ parseGo l m style, seg.text ≠ [] := by
  induction l, m, style using parseGo.induct with
  | case1 style => simp [parseGo]
  | case2 style cur h => simp [parseGo, h]
  | case3 style acc => simp [parseGo]
  | case4 style c cs acc halpha ih => simpa [parseGo, halpha] using ih
  | case5 style c cs acc halpha ih => simpa [parseGo, halpha] using ih
  | case6 style rest cur ih =>
    intro seg hseg
    rw [parseGo] at hseg
    rcases List.mem_append.mp hseg with hl | hr
    · rcases em (cur = []) with hc | hc
      · simp [hc] at hl
      · rw [if_neg hc] at hl
        rcases List.mem_singleton.mp hl with rfl
        exact hc
    · exact ih seg hr
  | case7 style c cs cur hne ih =>
    rw [parseGo_text_cons c cs cur style hne]
    exact ih

/-- C8: every segment produced by the decoder has non-empty text — segments
are only flushed when the pending buffer is non-empty. -/
theorem segments_nonempty (line : String) (entry : LogEntry)
    (h : parse_log_line line = some entry) :
    ∀ seg ∈ segmentsOf entry, seg.text ≠ [] := by
  unfold parse_log_line at h
  split at h
  · exact absurd h (by simp)
  · rw [Option.some.injEq] at h
    subst h
    intro seg hseg
    rw [segmentsOf] at hseg
    simp only [List.flatten, List.append_nil] at hseg
    exact parseGo_text_ne line.data (PMode.text []) Style.default seg (by simpa using hseg)

/-- Witness for C8: the first segment of the decoded `c2line` is non-empty. -/
theorem segments_nonempty_witness :
    (⟨"ERROR".data, ⟨some Color.red, false⟩⟩ : Seg).text ≠ [] :=
  segments_nonempty c2line c2entry (by decide)
    ⟨"ERROR".data, ⟨some Color.red, false⟩⟩ (by decide)

/-- C9: an ESC character not immediately followed by `[` does not start an
escape sequence: it is accumulated as an ordinary character with the current
style unchanged; concretely, `"ab\x1Bc"` decodes to the single
default-styled segment `"ab\x1Bc"` with the ESC byte verbatim in its text. -/
theorem lone_esc_literal :
    (∀ (cs cur : List Char) (style : Style), cs.head? ≠ some '[' →
      parseGo ('\x1B' :: cs) (PMode.text cur) style
        = parseGo cs (PMode.text (cur ++ ['\x1B'])) style) ∧
    parse_log_line "ab\x1Bc"
      = some ⟨"ab\x1Bc", [[⟨['a', 'b', '\x1B', 'c'], Style.default⟩]]⟩ := by
  constructor
  · intro cs cur style h
    apply parseGo_text_cons
    intro rest _ hcs
    exact h (by simp [hcs])
  · decide

/-- Witness for C9 applied at a concrete tail not starting with `[`. -/
theorem lone_esc_literal_witness :
    parseGo ('\x1B' :: ['a']) (PMode.text []) Style.default
      = parseGo ['a'] (PMode.text ['\x1B']) Style.default :=
  lone_esc_literal.1 ['a'] [] Style.default (by decide)

/-- C6: each recognized SGR code (31 red, 32 green, 33 yellow, 34 blue,
35 magenta, 36 cyan, 1 bold-without-color, 0 reset) replaces the current
style rather than merging with it — in particular code 1 after code 31 is
bold without red — any other code string leaves the style unchanged, and
`"\x1B[31mERROR\x1B[0m done"` decodes to `("ERROR", red)` then
`(" done", default)`. -/
theorem sgr_codes_replace_style :
    (∀ style : Style,
      applyCode ['3', '1'] style = ⟨some Color.red, false⟩ ∧
      applyCode ['3', '2'] style = ⟨some Color.green, false⟩ ∧
      applyCode ['3', '3'] style = ⟨some Color.yellow, false⟩ ∧
      applyCode ['3', '4'] style = ⟨some Color.blue, false⟩ ∧
      applyCode ['3', '5'] style = ⟨some Color.magenta, false⟩ ∧
      applyCode ['3', '6'] style = ⟨some Color.cyan, false⟩ ∧
      applyCode ['1'] style = ⟨none, true⟩ ∧
      applyCode ['0'] style = Style.default ∧
      applyCode ['1'] (applyCode ['3', '1'] style) = ⟨none, true⟩) ∧
    (∀ (code : List Char) (style : Style),
      code ∉ [['3', '1'], ['3', '2'], ['3', '3'], ['3', '4'], ['3', '5'],
        ['3', '6'], ['1'], ['0']] →
      applyCode code style = style) ∧
    parse_log_line c2line = some c2entry := by
  refine ⟨fun style => ?_, fun code style hmem => ?_, by decide⟩
  · exact ⟨rfl, rfl, rfl, rfl, rfl, rfl, rfl, rfl, rfl⟩
  · simp only [List.mem_cons, List.not_mem_nil, or_false] at hmem
    push_neg at hmem
    obtain ⟨h1, h2, h3, h4, h5, h6, h7, h8⟩ := hmem
    simp [applyCode, h1, h2, h3, h4, h5, h6, h7, h8]

/-- Witness for C6: the unrecognized code "99" leaves a non-default current
style unchanged. -/
theorem sgr_codes_replace_style_witness :
    applyCode ['9', '9'] ⟨some Color.red, true⟩ = ⟨some Color.red, true⟩ :=
  sgr_codes_replace_style.2.1 ['9', '9'] ⟨some Color.red, true⟩ (by decide)

/-! ## State machine: confirm-time frame conditions -/

/-- C3: while editing, confirming a non-empty pattern that fails to compile
only exits edit mode: the compiled filter and the history are left exactly
as they were (the operation is total, so no error reaches the caller). -/
theorem malformed_confirm_is_noop (E : RegexEngine) (a : App)
    (_hedit : a.is_searching = true) (hne : a.search_pattern ≠ "")
    (hbad : E.compilesOk a.search_pattern = false) :
    (App.confirm_search E a).is_searching = false ∧
    (App.confirm_search E a).search_regex = a.search_regex ∧
    (App.confirm_search E a).saved_patterns = a.saved_patterns := by
  simp [App.confirm_search, hne, hbad]

/-- Witness for C3: confirming the malformed pattern `"["` over a state with
the previously confirmed filter `"ERROR"`. -/
theorem malformed_confirm_is_noop_witness :
    (App.confirm_search litEngine brokenApp).is_searching = false ∧
    (App.confirm_search litEngine brokenApp).search_regex = brokenApp.search_regex ∧
    (App.confirm_search litEngine brokenApp).saved_patterns = brokenApp.saved_patterns :=
  malformed_confirm_is_noop litEngine brokenApp (by decide) (by decide) (by decide)

/-- C7: confirming with an empty pattern only clears the editing flag —
every other field, including the compiled filter and the history, is
untouched — and an empty string is never added to the history by any
confirm. -/
theorem empty_confirm_frame :
    (∀ (E : RegexEngine) (a : App), a.search_pattern = "" →
      App.confirm_search E a = { a with is_searching := false }) ∧
    (∀ (E : RegexEngine) (a : App), "" ∉ a.saved_patterns →
      "" ∉ (App.confirm_search E a).saved_patterns) := by
  constructor
  · intro E a h
    simp [App.confirm_search, h]
  · intro E a h
    unfold App.confirm_search
    split_ifs with hp hok hmem hlen
    · exact h
    · exact h
    · intro hin
      have hin2 : "" ∈ a.saved_patterns.tail ∨ "" = a.search_pattern := by simpa using hin
      rcases hin2 with h1 | h2
      · exact h (List.mem_of_mem_tail h1)
      · exact hp h2.symm
    · intro hin
      have hin2 : "" ∈ a.saved_patterns ∨ "" = a.search_pattern := by simpa using hin
      rcases hin2 with h1 | h2
      · exact h h1
      · exact hp h2.symm
    · exact h

/-- Witness for C7: confirming an empty pattern after `"ERROR"` was
confirmed leaves the filter `"ERROR"` compiled and the history without an
empty string. -/
theorem empty_confirm_frame_witness :
    App.confirm_search litEngine errApp = { errApp with is_searching := false } ∧
    "" ∉ (App.confirm_search litEngine errApp).saved_patterns :=
  ⟨empty_confirm_frame.1 litEngine errApp (by decide),
   empty_confirm_frame.2 litEngine errApp (by decide)⟩

/-- C10: confirming a non-empty, valid pattern that is already in the
history leaves the history entirely unchanged — it is neither appended
again nor moved to the most-recent position, so all numeric slots keep
their assignments. -/
theorem duplicate_confirm_keeps_history (E : RegexEngine) (a : App)
    (hne : a.search_pattern ≠ "") (hok : E.compilesOk a.search_pattern = true)
    (hmem : a.search_pattern ∈ a.saved_patterns) :
    (App.confirm_search E a).saved_patterns = a.saved_patterns := by
  simp [App.confirm_search, hne, hok, hmem]

/-- Witness for C10: re-confirming `"beta"`, already in slot 1 of the
history `["beta", "alpha"]`. -/
theorem duplicate_confirm_keeps_history_witness :
    (App.confirm_search litEngine dupApp).saved_patterns = dupApp.saved_patterns :=
  duplicate_confirm_keeps_history litEngine dupApp (by decide) (by decide) (by decide)

/-! ## Scroll invariant (C1) -/

/-- Updating only `scroll` does not change the filtered view. -/
theorem filtered_logs_scroll (E : RegexEngine) (a : App) (n : Nat) :
    App.filtered_logs E { a with scroll := n } = App.filtered_logs E a := rfl

/-- The invariant for a scroll-only update, unfolded. -/
theorem scrollInv_update (E : RegexEngine) (h n : Nat) (a : App) :
    scrollInv E h { a with scroll := n } ↔ n ≤ (App.filtered_logs E a).length - h :=
  Iff.rfl

/-- Each scroll operation taken at the invariant's viewport height preserves
the invariant (`pageUp`/`pageDown` re-establish the bound outright). -/
theorem step_scroll_inv (E : RegexEngine) (h : Nat) (a : App) (op : Op)
    (hop : op.isScrollOp h) (hinv : scrollInv E h a) :
    scrollInv E h (a.step E op) := by
  cases op with
  | scrollUp =>
    simp only [App.step, App.scroll_up]
    split
    · rw [scrollInv_update]
      unfold scrollInv at hinv
      omega
    · exact hinv
  | scrollDown h2 =>
    obtain rfl : h2 = h := hop
    simp only [App.step, App.scroll_down]
    split
    · rename_i hlt
      rw [scrollInv_update]
      omega
    · exact hinv
  | pageUp h2 =>
    simp only [App.step, App.page_up]
    rw [scrollInv_update]
    unfold scrollInv at hinv
    omega
  | pageDown h2 =>
    obtain rfl : h2 = h := hop
    simp only [App.step, App.page_down]
    rw [scrollInv_update]
    exact Nat.min_le_right _ _
  | confirm => simp [Op.isScrollOp] at hop
  | recallSlot n => simp [Op.isScrollOp] at hop
  | cancel => simp [Op.isScrollOp] at hop

/-- C1 (amended): the scroll bound `0 ≤ scrollOffset ≤ max 0 (filteredCount −
viewportHeight)` is preserved by every sequence of scroll operations
(scrollUp, scrollDown, pageUp, pageDown) taken at the invariant's viewport
height; the filter-changing operations (confirmFilterEdit, recallHistorySlot,
cancelFilterEdit) leave `scrollOffset` unchanged — they do not re-clamp it —
so the bound can be violated when such an operation shrinks the filtered
set (see the counterexample). -/
theorem scroll_ops_preserve_inv (E : RegexEngine) (h : Nat) (a : App)
    (ops : List Op) (hops : ∀ op ∈ ops, op.isScrollOp h)
    (hinv : scrollInv E h a) :
    scrollInv E h (App.run E a ops) ∧
    (∀ b : App, (App.confirm_search E b).scroll = b.scroll) ∧
    (∀ (b : App) (n : Nat), (App.load_pattern E b n).scroll = b.scroll) ∧
    (∀ b : App, b.cancel_search.scroll = b.scroll) := by
  refine ⟨?_, ?_, ?_, ?_⟩
  · induction ops generalizing a with
    | nil => exact hinv
    | cons op ops ih =>
      exact ih (a.step E op) (fun o ho => hops o (by simp [ho]))
        (step_scroll_inv E h a op (hops op (by simp)) hinv)
  · intro b
    unfold App.confirm_search
    split_ifs <;> rfl
  · intro b n
    simp only [App.load_pattern]
    split_ifs <;> rfl
  · intro b
    rfl

/-- Witness for the amended C1: one scrollDown step at height 1 from a
fresh one-line state. -/
theorem scroll_ops_preserve_inv_witness :
    scrollInv litEngine 1 (App.run litEngine (App.new [entryAlpha]) [Op.scrollDown 1]) ∧
    (∀ b : App, (App.confirm_search litEngine b).scroll = b.scroll) ∧
    (∀ (b : App) (n : Nat), (App.load_pattern litEngine b n).scroll = b.scroll) ∧
    (∀ b : App, b.cancel_search.scroll = b.scroll) :=
  scroll_ops_preserve_inv litEngine 1 (App.new [entryAlpha]) [Op.scrollDown 1]
    (by
      intro op hop
      rcases List.mem_singleton.mp hop with rfl
      simp [Op.isScrollOp])
    (by decide)

/-- C1 counterexample: the claim as stated is false. From the state `zzApp`
— two lines, viewport height 1, `scrollOffset = 1` satisfying the invariant
— the single operation confirmFilterEdit (pattern `"zz"`, matching no line)
shrinks the filtered set to 0 lines but leaves `scrollOffset = 1`, violating
`scrollOffset ≤ max 0 (filteredCount − viewportHeight) = 0`: the code does
not re-clamp on filter-changing operations. -/
theorem confirm_breaks_scroll_inv :
    scrollInv litEngine 1 zzApp ∧
    ¬ scrollInv litEngine 1 (App.run litEngine zzApp [Op.confirm]) :=
  ⟨by decide, by decide⟩

/-! ## History as a bounded FIFO (C4) -/

theorem lastN_append_lastN (n : Nat) (xs ys : List α) :
    lastN n (lastN n xs ++ ys) = lastN n (xs ++ ys) := by
  unfold lastN
  have hk : xs.length - n ≤ xs.length := Nat.sub_le _ _
  rw [← List.drop_append_of_le_length hk, List.drop_drop]
  congr 1
  simp only [List.length_drop, List.length_append]
  omega

/-- The history update of one successful, novel confirm keeps the last 10
elements of the extended history. -/
theorem confirm_step_saved (E : RegexEngine) (a : App) (p : String)
    (hne : p ≠ "") (hok : E.compilesOk p = true) (hnm : p ∉ a.saved_patterns)
    (hlen : a.saved_patterns.length ≤ 10) :
    (App.confirm_search E { a with search_pattern := p, is_searching := true }).saved_patterns
      = lastN 10 (a.saved_patterns ++ [p]) := by
  rcases Nat.lt_or_ge a.saved_patterns.length 10 with hlt | hge
  · have hsv : (App.confirm_search E
        { a with search_pattern := p, is_searching := true }).saved_patterns
          = a.saved_patterns ++ [p] := by
      simp [App.confirm_search, hne, hok, hnm, Nat.not_le.mpr hlt]
    rw [hsv]
    unfold lastN
    have h0 : (a.saved_patterns ++ [p]).length - 10 = 0 := by
      simp only [List.length_append, List.length_cons, List.length_nil]
      omega
    rw [h0, List.drop_zero]
  · have h10 : a.saved_patterns.length = 10 := Nat.le_antisymm hlen hge
    have hsv : (App.confirm_search E
        { a with search_pattern := p, is_searching := true }).saved_patterns
          = a.saved_patterns.drop 1 ++ [p] := by
      simp [App.confirm_search, hne, hok, hnm, hge]
    rw [hsv]
    unfold lastN
    have h1 : (a.saved_patterns ++ [p]).length - 10 = 1 := by
      simp only [List.length_append, List.length_cons, List.length_nil]
      omega
    rw [h1, List.drop_append_of_le_length (by omega)]

/-- One confirm keeps the history duplicate-free and within the 10-entry
cap, whatever the pattern. -/
theorem confirm_saved_nodup_card (E : RegexEngine) (b : App)
    (hn : b.saved_patterns.Nodup) (hl : b.saved_patterns.length ≤ 10) :
    (App.confirm_search E b).saved_patterns.Nodup ∧
    (App.confirm_search E b).saved_patterns.length ≤ 10 := by
  unfold App.confirm_search
  split_ifs with hp hok hmem hlen
  · exact ⟨hn, hl⟩
  · exact ⟨hn, hl⟩
  · constructor
    · show (b.saved_patterns.drop 1 ++ [b.search_pattern]).Nodup
      rw [List.nodup_append]
      refine ⟨List.Nodup.sublist (List.drop_sublist _ _) hn, List.nodup_singleton _, ?_⟩
      intro x hx hx2
      rw [List.mem_singleton] at hx2
      subst hx2
      exact hmem (by simpa using List.mem_of_mem_drop hx)
    · show (b.saved_patterns.drop 1 ++ [b.search_pattern]).length ≤ 10
      simp only [List.length_append, List.length_drop, List.length_cons, List.length_nil]
      omega
  · constructor
    · show (b.saved_patterns ++ [b.search_pattern]).Nodup
      rw [List.nodup_append]
      refine ⟨hn, List.nodup_singleton _, ?_⟩
      intro x hx hx2
      rw [List.mem_singleton] at hx2
      subst hx2
      exact hmem (by simpa using hx)
    · show (b.saved_patterns ++ [b.search_pattern]).length ≤ 10
      simp only [List.length_append, List.length_cons, List.length_nil]
      omega
  · exact ⟨hn, hl⟩

/-- Any sequence of confirms keeps the history duplicate-free and within
the cap. -/
theorem confirmList_nodup_card (E : RegexEngine) : ∀ (ps : List String) (a : App),
    a.saved_patterns.Nodup → a.saved_patterns.length ≤ 10 →
    (confirmList E a ps).saved_patterns.Nodup ∧
    (confirmList E a ps).saved_patterns.length ≤ 10 := by
  intro ps
  induction ps with
  | nil =>
    intro a hn hl
    exact ⟨hn, hl⟩
  | cons p ps ih =>
    intro a hn hl
    rw [confirmList]
    have step := confirm_saved_nodup_card E
      { a with search_pattern := p, is_searching := true } hn hl
    exact ih _ step.1 step.2

/-- Confirming a list of fresh, valid patterns leaves exactly the last 10
of the extended history, in order. -/
theorem confirmList_saved (E : RegexEngine) : ∀ (ps : List String) (a : App),
    a.saved_patterns.length ≤ 10 →
    (a.saved_patterns ++ ps).Nodup →
    (∀ p ∈ ps, p ≠ "" ∧ E.compilesOk p = true) →
    (confirmList E a ps).saved_patterns = lastN 10 (a.saved_patterns ++ ps) := by
  intro ps
  induction ps with
  | nil =>
    intro a hl hnd _
    rw [confirmList]
    unfold lastN
    rw [List.append_nil, Nat.sub_eq_zero_of_le hl, List.drop_zero]
  | cons p ps ih =>
    intro a hl hnd hval
    have hpne := (hval p (List.mem_cons_self p ps)).1
    have hpok := (hval p (List.mem_cons_self p ps)).2
    have hdisj := (List.nodup_append.mp hnd).2.2
    have hpnm : p ∉ a.saved_patterns := fun hin => hdisj hin (List.mem_cons_self p ps)
    have hsv := confirm_step_saved E a p hpne hpok hpnm hl
    rw [confirmList]
    have hrearr : ((a.saved_patterns ++ [p]) ++ ps).Nodup := by
      rw [← List.append_cons]
      exact hnd
    have hnd2 : ((App.confirm_search E
        { a with search_pattern := p, is_searching := true }).saved_patterns ++ ps).Nodup := by
      refine List.Nodup.sublist ?_ hrearr
      rw [hsv]
      refine List.Sublist.append_right ?_ ps
      unfold lastN
      exact List.drop_sublist _ _
    have hlen2 : (App.confirm_search E
        { a with search_pattern := p, is_searching := true }).saved_patterns.length ≤ 10 := by
      rw [hsv]
      unfold lastN
      rw [List.length_drop]
      omega
    have hrec := ih _ hlen2 hnd2 (fun q hq => hval q (List.mem_cons_of_mem p hq))
    rw [hrec, hsv, lastN_append_lastN, ← List.append_cons]

/-- C4: starting from a duplicate-free history of at most 10 entries, any
sequence of confirms keeps the history duplicate-free with at most 10
entries; and confirming 11 pairwise-distinct valid patterns from an empty
history yields exactly the last 10 in confirmation order, the first
confirmed pattern having been evicted. -/
theorem history_bounded_fifo :
    (∀ (E : RegexEngine) (a : App) (ps : List String),
      a.saved_patterns.Nodup → a.saved_patterns.length ≤ 10 →
      (confirmList E a ps).saved_patterns.Nodup ∧
      (confirmList E a ps).saved_patterns.length ≤ 10) ∧
    (∀ (E : RegexEngine) (a : App) (ps : List String),
      ps.length = 11 → ps.Nodup →
      (∀ p ∈ ps, p ≠ "" ∧ E.compilesOk p = true) →
      a.saved_patterns = [] →
      (confirmList E a ps).saved_patterns = ps.drop 1 ∧
      (∀ q, ps.head? = some q → q ∉ (confirmList E a ps).saved_patterns)) := by
  constructor
  · intro E a ps hn hl
    exact confirmList_nodup_card E ps a hn hl
  · intro E a ps hlen hnd hval hsv
    have hmain := confirmList_saved E ps a (by rw [hsv]; simp) (by rw [hsv]; simpa using hnd) hval
    rw [hsv] at hmain
    simp only [List.nil_append] at hmain
    have heq : lastN 10 ps = ps.drop 1 := by
      unfold lastN
      rw [hlen]
    refine ⟨by rw [hmain, heq], ?_⟩
    intro q hq
    rw [hmain, heq]
    rcases ps with _ | ⟨p0, ps2⟩
    · simp at hlen
    · rw [List.head?_cons, Option.some.injEq] at hq
      subst hq
      simpa using (List.nodup_cons.mp hnd).1

/-- Witness for C4: the 11 concrete patterns of `elevenPats` from a fresh
state. -/
theorem history_bounded_fifo_witness :
    ((confirmList litEngine (App.new []) elevenPats).saved_patterns.Nodup ∧
     (confirmList litEngine (App.new []) elevenPats).saved_patterns.length ≤ 10) ∧
    (confirmList litEngine (App.new []) elevenPats).saved_patterns = elevenPats.drop 1 :=
  ⟨history_bounded_fifo.1 litEngine (App.new []) elevenPats (by decide) (by decide),
   (history_bounded_fifo.2 litEngine (App.new []) elevenPats (by decide) (by decide)
     (by decide) rfl).1⟩

end Logview
